import Mathlib

/-!
# Verification of the SPFPM demo harness and its fixed-point engine model

The repository ships the demonstration harness `demo.py`; the fixed-point
engine (`FixedPoint.FXfamily`, `FixedPoint.FXnum`, …) that the harness
exercises is not part of the visible sources, so the engine is modelled
here from the specification, while the harness control flow (demo
registration, the overflow loop, the accuracy helper `lostbits`, the
basic demo) is embedded directly from `demo.py`.
-/

/-- Modelled from the spec: a Family is an immutable precision
configuration made of a fractional-bit `resolution` and an
`integerBits` width bounding representable magnitude. -/
structure FXfamily where
  resolution : ℕ
  integerBits : ℕ
deriving DecidableEq

/-- Modelled from the spec: `integerBits` has a sensible default when
omitted from the Family constructor (the missing engine's default
width; any fixed positive width satisfies the spec's wording). -/
def defaultIntegerBits : ℕ := 64

/-- Modelled from the spec: constructing a Family from a resolution
alone, as the harness does in `FXfamily(resolution)`. -/
def FXfamily.ofResolution (res : ℕ) : FXfamily :=
  ⟨res, defaultIntegerBits⟩

/-- A Family is usable when both bit widths are positive, matching the
data-model requirements (`resolution`: positive integer, `integerBits`:
positive integer). -/
def FXfamily.wellFormed (f : FXfamily) : Bool :=
  decide (0 < f.resolution) && decide (0 < f.integerBits)

/-- Modelled from the spec: the range invariant
`|scaledValue| < 2 ^ (resolution + integerBits - 1)` checked by the
overflow guard. -/
def FXfamily.validScaled (f : FXfamily) (v : ℤ) : Bool :=
  decide (v.natAbs < 2 ^ (f.resolution + f.integerBits - 1))

/-- Modelled from the spec: a Number wraps an exact scaled integer
(`real value * 2 ^ resolution`) and a reference to its owning Family. -/
structure FXnum where
  scaledValue : ℤ
  family : FXfamily
deriving DecidableEq

/-- Modelled from the spec: the error taxonomy — Overflow, DomainError,
DivisionByZero and FamilyMismatch. -/
inductive FXerror where
  | overflow
  | domain
  | divisionByZero
  | familyMismatch
deriving DecidableEq

/-- Right shift by `n` bits with round-to-nearest (half away from the
floor), the rescaling step used after a fixed-point multiply. -/
def shiftRound (n : ℕ) (v : ℤ) : ℤ :=
  if n = 0 then v else Int.ediv (v + 2 ^ (n - 1)) (2 ^ n)

/-- Modelled from the spec: a Number built from an integer literal,
scaled into the Family's representation. -/
def fxFromInt (n : ℤ) (f : FXfamily) : FXnum :=
  ⟨n * 2 ^ f.resolution, f⟩

/-- Modelled from the spec: a Number built from the exact rational
value `num / den` of a literal, rounded to the nearest scaled value
(used for the float literals appearing in the harness, e.g. `0.1`). -/
def fxFromRat (num : ℤ) (den : ℕ) (f : FXfamily) : FXnum :=
  ⟨Int.ediv (2 * num * 2 ^ f.resolution + den) (2 * den), f⟩

/-- Modelled from the spec: re-expression of a Number under another
Family (`FXnum(x, fam_acc)` in the harness): the scaled value is shifted
left when the target resolution is larger, or shifted right with
rounding when it is smaller. -/
def fxConvert (x : FXnum) (f : FXfamily) : FXnum :=
  if x.family.resolution ≤ f.resolution then
    ⟨x.scaledValue * 2 ^ (f.resolution - x.family.resolution), f⟩
  else
    ⟨shiftRound (x.family.resolution - f.resolution) x.scaledValue, f⟩

/-- Modelled from the spec: exact scaled addition, rejected on a Family
mismatch and range-checked by the overflow guard after the operation. -/
def fxAdd (a b : FXnum) : Except FXerror FXnum :=
  if a.family = b.family then
    if a.family.validScaled (a.scaledValue + b.scaledValue) then
      Except.ok ⟨a.scaledValue + b.scaledValue, a.family⟩
    else Except.error FXerror.overflow
  else Except.error FXerror.familyMismatch

/-- Modelled from the spec: exact scaled subtraction, rejected on a
Family mismatch and range-checked by the overflow guard. -/
def fxSub (a b : FXnum) : Except FXerror FXnum :=
  if a.family = b.family then
    if a.family.validScaled (a.scaledValue - b.scaledValue) then
      Except.ok ⟨a.scaledValue - b.scaledValue, a.family⟩
    else Except.error FXerror.overflow
  else Except.error FXerror.familyMismatch

/-- Modelled from the spec: fixed-point multiply — full-width product,
rescaled by `resolution` bits with rounding, then range-checked. -/
def fxMul (a b : FXnum) : Except FXerror FXnum :=
  if a.family = b.family then
    if a.family.validScaled (shiftRound a.family.resolution (a.scaledValue * b.scaledValue)) then
      Except.ok ⟨shiftRound a.family.resolution (a.scaledValue * b.scaledValue), a.family⟩
    else Except.error FXerror.overflow
  else Except.error FXerror.familyMismatch

/-- Modelled from the spec: fixed-point division — fails with
DivisionByZero on a zero divisor, otherwise scales the dividend left by
`resolution` bits before integer division, then range-checks. -/
def fxDiv (a b : FXnum) : Except FXerror FXnum :=
  if a.family = b.family then
    if b.scaledValue = 0 then Except.error FXerror.divisionByZero
    else
      if a.family.validScaled (Int.ediv (a.scaledValue * 2 ^ a.family.resolution) b.scaledValue) then
        Except.ok ⟨Int.ediv (a.scaledValue * 2 ^ a.family.resolution) b.scaledValue, a.family⟩
      else Except.error FXerror.overflow
  else Except.error FXerror.familyMismatch

/-- Modelled from the spec: absolute value by sign inspection on the
scaled value; no iteration and no failure. -/
def fxAbs (a : FXnum) : FXnum :=
  ⟨|a.scaledValue|, a.family⟩

/-- Modelled from the spec: the Taylor-series loop for the exponential,
run on a range-reduced scaled argument; `term` is the current series
term at index `n`, `acc` the partial sum, and the loop stops once the
next correction falls below one unit in the last scaled place (the term
truncates to zero). -/
def expTaylorLoop (res : ℕ) (x : ℤ) : ℕ → ℤ → ℕ → ℤ → ℤ
  | 0, _, _, acc => acc
  | fuel + 1, term, n, acc =>
      if term = 0 then acc
      else expTaylorLoop res x fuel
        (Int.ediv (shiftRound res (term * x)) (n + 1)) (n + 1) (acc + term)

/-- Taylor series for `exp` started at term `1.0`, with iteration fuel
amply above the convergence point for a reduced argument. -/
def expTaylorScaled (res : ℕ) (x : ℤ) : ℤ :=
  expTaylorLoop res x (16 * (res + 4)) (2 ^ res) 0 0

/-- Number of halvings needed to bring a scaled magnitude below `1.0`
(below `2 ^ res`), the range-reduction depth for the exponential. -/
def halveCountAux (res : ℕ) : ℕ → ℕ → ℕ
  | 0, _ => 0
  | fuel + 1, a => if a < 2 ^ res then 0 else halveCountAux res fuel (a / 2) + 1

/-- Range-reduction depth for a scaled argument of magnitude `a`. -/
def halveCount (res a : ℕ) : ℕ := halveCountAux res a a

/-- Repeated halving of a scaled value, with rounding at each step. -/
def halveN : ℤ → ℕ → ℤ
  | v, 0 => v
  | v, n + 1 => halveN (shiftRound 1 v) n

/-- Repeated fixed-point squaring, the scale-back step of the
exponential's range reduction. -/
def squareN (res : ℕ) : ℤ → ℕ → ℤ
  | v, 0 => v
  | v, n + 1 => squareN res (shiftRound res (v * v)) n

/-- Modelled from the spec: the exponential — range-reduce by repeated
halving using `exp x = (exp (x/2))^2`, evaluate the Taylor series on
the reduced argument, then scale back by repeated squaring. -/
def fxExpScaled (res : ℕ) (x : ℤ) : ℤ :=
  squareN res (expTaylorScaled res (halveN x (halveCount res x.natAbs)))
    (halveCount res x.natAbs)

/-- Modelled from the spec: the exponential entry point on Numbers,
raising Overflow when the result exceeds the Family's integer-bit
range. -/
def fxExp (a : FXnum) : Except FXerror FXnum :=
  if a.family.validScaled (fxExpScaled a.family.resolution a.scaledValue) then
    Except.ok ⟨fxExpScaled a.family.resolution a.scaledValue, a.family⟩
  else Except.error FXerror.overflow

/-- Recognizer for the Overflow error kind, the one kind the overflow
demo catches. -/
def isOverflowErr : Except FXerror FXnum → Bool
  | Except.error FXerror.overflow => true
  | _ => false

/-- The Family `FXfamily(20, intsize)` built by the overflow demo. -/
def demoFamily (w : ℕ) : FXfamily := ⟨20, w⟩

/-- The demo's loop variable after `k` iterations of `x += 0.1`: the
step literal is promoted once into the 20-fractional-bit Family and the
exact additions accumulate it `k` times. -/
def demoX (w k : ℕ) : FXnum :=
  ⟨(k : ℤ) * (fxFromRat 1 10 (demoFamily w)).scaledValue, demoFamily w⟩

/-- Whether `x.exp()` raises Overflow at iteration `k` of the overflow
demo's loop for integer width `w`. -/
def demoOverflowsAt (w k : ℕ) : Bool :=
  isOverflowErr (fxExp (demoX w k))

/-- Names of the family-wide constants cached by a Family. -/
inductive ConstName where
  | pi
  | exp1
  | log2
deriving DecidableEq

/-- Modelled from the spec: series loop for `atan (1/m)`, the building
block of the Machin-like sum for pi; `t` is the current power term,
`j` the series index, `acc` the alternating partial sum. -/
def atanInvLoop (msq : ℕ) : ℕ → ℤ → ℕ → ℤ → ℤ
  | 0, _, _, acc => acc
  | fuel + 1, t, j, acc =>
      if t = 0 then acc
      else atanInvLoop msq fuel (Int.ediv t msq) (j + 1)
        (acc + (if j % 2 = 0 then 1 else -1) * Int.ediv t (2 * j + 1))

/-- Scaled `atan (1/m)` by the alternating reciprocal series. -/
def atanRecipScaled (res m : ℕ) : ℤ :=
  atanInvLoop (m * m) (res + 2) (Int.ediv (2 ^ res) m) 0 0

/-- Modelled from the spec: pi from a Machin-like arctangent sum,
`pi = 16 atan (1/5) - 4 atan (1/239)`. -/
def computePiScaled (res : ℕ) : ℤ :=
  16 * atanRecipScaled res 5 - 4 * atanRecipScaled res 239

/-- Modelled from the spec: series loop for the `ln 2` constant,
summing `1 / (k * 2 ^ k)`. -/
def log2Loop : ℕ → ℤ → ℕ → ℤ → ℤ
  | 0, _, _, acc => acc
  | fuel + 1, p, k, acc =>
      if p = 0 then acc
      else log2Loop fuel (Int.ediv p 2) (k + 1) (acc + Int.ediv p k)

/-- Scaled `ln 2` by its rapidly converging series. -/
def computeLog2Scaled (res : ℕ) : ℤ :=
  log2Loop (res + 2) (Int.ediv (2 ^ res) 2) 1 0

/-- Modelled from the spec: `e` by the direct Taylor series at 1. -/
def computeExp1Scaled (res : ℕ) : ℤ := expTaylorScaled res (2 ^ res)

/-- Modelled from the spec: extra guard bits used while computing a
family constant, absorbed by rounding down to the Family's own
resolution when the constant is stored. -/
def guardBits : ℕ := 8

/-- Modelled from the spec: the scaled value of a family constant,
computed at `resolution + guardBits` precision and rounded down. -/
def computeConstant (f : FXfamily) : ConstName → ℤ
  | ConstName.pi => Int.ediv (computePiScaled (f.resolution + guardBits)) (2 ^ guardBits)
  | ConstName.exp1 => Int.ediv (computeExp1Scaled (f.resolution + guardBits)) (2 ^ guardBits)
  | ConstName.log2 => Int.ediv (computeLog2Scaled (f.resolution + guardBits)) (2 ^ guardBits)

/-- Modelled from the spec: a Family together with its lazily populated
constants cache (one optional slot per constant). -/
structure FXfamilyState where
  family : FXfamily
  cachePi : Option ℤ
  cacheExp1 : Option ℤ
  cacheLog2 : Option ℤ
deriving DecidableEq

/-- A freshly constructed Family carries an empty constants cache. -/
def FXfamilyState.init (f : FXfamily) : FXfamilyState := ⟨f, none, none, none⟩

/-- Modelled from the spec: `constant(name)` — return the cached scaled
value when present (the Bool records whether a recomputation happened:
`false` means the cached value was returned as-is); on a miss, compute
the constant, store it, and return it. -/
def FXfamilyState.getConstant (s : FXfamilyState) : ConstName → ℤ × FXfamilyState × Bool
  | ConstName.pi =>
      match s.cachePi with
      | some v => (v, s, false)
      | none => (computeConstant s.family ConstName.pi,
          ⟨s.family, some (computeConstant s.family ConstName.pi),
            s.cacheExp1, s.cacheLog2⟩, true)
  | ConstName.exp1 =>
      match s.cacheExp1 with
      | some v => (v, s, false)
      | none => (computeConstant s.family ConstName.exp1,
          ⟨s.family, s.cachePi,
            some (computeConstant s.family ConstName.exp1), s.cacheLog2⟩, true)
  | ConstName.log2 =>
      match s.cacheLog2 with
      | some v => (v, s, false)
      | none => (computeConstant s.family ConstName.log2,
          ⟨s.family, s.cachePi, s.cacheExp1,
            some (computeConstant s.family ConstName.log2)⟩, true)

/-- Number of binary digits of a natural number, computed with fuel. -/
def bitLenAux : ℕ → ℕ → ℕ
  | 0, _ => 0
  | fuel + 1, n => if n = 0 then 0 else bitLenAux fuel (n / 2) + 1

/-- Number of binary digits of a natural number. -/
def bitLen (n : ℕ) : ℕ := bitLenAux n n

/-- Modelled from the spec: series loop for `artanh`, the rapidly
converging series the logarithm uses near 1 — sums
`z ^ (2k+1) / (2k+1)` where `zsq` is the scaled `z ^ 2`. -/
def artanhLoop (res : ℕ) (zsq : ℤ) : ℕ → ℤ → ℕ → ℤ → ℤ
  | 0, _, _, acc => acc
  | fuel + 1, t, k, acc =>
      if t = 0 then acc
      else artanhLoop res zsq fuel (shiftRound res (t * zsq)) (k + 1)
        (acc + Int.ediv t (2 * k + 1))

/-- The series variable `z = (x - 1) / (x + 1)` for the logarithm of a
scaled argument `x` near 1. -/
def lnZ (res : ℕ) (x : ℤ) : ℤ :=
  Int.ediv ((x - 2 ^ res) * 2 ^ res) (x + 2 ^ res)

/-- Scaled `ln x` for `x` range-reduced near 1, via
`ln x = 2 * artanh ((x - 1) / (x + 1))`. -/
def lnNear1 (res : ℕ) (x : ℤ) : ℤ :=
  2 * artanhLoop res (shiftRound res (lnZ res x * lnZ res x)) (res + 2)
    (lnZ res x) 0 0

/-- The scaled argument brought into `[1, 2)` by dividing out or
multiplying in powers of 2. -/
def lnReduced (res : ℕ) (s : ℤ) : ℤ :=
  if res + 1 ≤ bitLen s.natAbs then shiftRound (bitLen s.natAbs - 1 - res) s
  else s * 2 ^ (res + 1 - bitLen s.natAbs)

/-- Modelled from the spec: the natural logarithm — range-reduce by
powers of 2 using the cached `log2` constant, then the series near 1:
`ln s = ln (reduced) + c * ln 2` with `c` the power of 2 divided out. -/
def lnScaled (res : ℕ) (s : ℤ) : ℤ :=
  ((bitLen s.natAbs : ℤ) - 1 - res)
      * Int.ediv (computeLog2Scaled (res + guardBits)) (2 ^ guardBits)
    + lnNear1 res (lnReduced res s)

/-- Modelled from the spec: the logarithm entry point on Numbers —
DomainError for non-positive inputs, Overflow when the result exceeds
the Family's range. -/
def fxLn (a : FXnum) : Except FXerror FXnum :=
  if a.scaledValue ≤ 0 then Except.error FXerror.domain
  else
    if a.family.validScaled (lnScaled a.family.resolution a.scaledValue) then
      Except.ok ⟨lnScaled a.family.resolution a.scaledValue, a.family⟩
    else Except.error FXerror.overflow

/-- The Family constant `log2` as a Number under its Family, as the
harness reads `fam_acc.log2`. -/
def famLog2 (f : FXfamily) : FXnum := ⟨computeConstant f ConstName.log2, f⟩

/-- The helper `lostbits(x, x_acc)` of `piAccuracyPlot`, embedded from
demo.py lines 111-115: `x` is first reconstructed under the
higher-resolution Family of `x_acc` (`FXnum(x, fam_acc)`), then
`abs(eps).log() / fam_acc.log2 + x.family.resolution` is evaluated, the
integer `resolution` being promoted into `fam_acc`. -/
def lostbitsM (x xacc : FXnum) : Except FXerror FXnum :=
  match fxSub (fxConvert x xacc.family) xacc with
  | Except.error e => Except.error e
  | Except.ok eps =>
      match fxLn (fxAbs eps) with
      | Except.error e => Except.error e
      | Except.ok l =>
          match fxDiv l (famLog2 xacc.family) with
          | Except.error e => Except.error e
          | Except.ok q =>
              fxAdd q (fxFromInt (x.family.resolution : ℤ) xacc.family)

/-- One iteration of the speed demo's logistic map (demo.py lines
63-65): `x = lmb * x * (one - x)`, all three operands built under one
Family. -/
def speedStep (lmb one x : FXnum) : Except FXerror FXnum :=
  match fxSub one x with
  | Except.error e => Except.error e
  | Except.ok d =>
      match fxMul lmb x with
      | Except.error e => Except.error e
      | Except.ok p => fxMul p d

/-- The engine call made at step `k` of the overflow demo's inner loop
for integer width `w`. -/
def demoExpF (w k : ℕ) : Except FXerror FXnum := fxExp (demoX w k)

/-- The overflow demo's inner loop (demo.py lines 41-47), parametrized
by the engine's `exp` at step `k`: on success the loop continues with
`x += 0.1`; an `FXoverflowError` is caught, the overflow point `k` is
reported and the loop is left; any other error kind propagates
uncaught. `fuel` bounds the iterations explored, and `none` means the
loop is still running after `fuel` iterations — the harness itself
imposes no cap. -/
def overflowLoop (expF : ℕ → Except FXerror FXnum) :
    ℕ → ℕ → Option (Except FXerror ℕ)
  | 0, _ => none
  | fuel + 1, k =>
      match expF k with
      | Except.ok _ => overflowLoop expF fuel (k + 1)
      | Except.error FXerror.overflow => some (Except.ok k)
      | Except.error e => some (Except.error e)

/-- A probe engine for the loop-exit analysis: it succeeds at step 0,
then fails with a DomainError, an error kind the demo does not catch. -/
def demoErrProbe (k : ℕ) : Except FXerror FXnum :=
  if k = 0 then Except.ok ⟨0, ⟨20, 4⟩⟩ else Except.error FXerror.domain

/-- The demo applications of `demo.py`, in registration order. -/
inductive DemoName where
  | basic
  | overflow
  | speed
  | piplot
  | piaccplot
deriving DecidableEq

/-- The ordered demo registry built by `main`: the three console demos
always, then the two plotting demos only when matplotlib and numpy
imported successfully. -/
def registeredDemos (haveMatplotlib : Bool) : List DemoName :=
  [DemoName.basic, DemoName.overflow, DemoName.speed]
    ++ (if haveMatplotlib then [DemoName.piplot, DemoName.piaccplot] else [])

/-- The demo list `main` actually runs: with `--all` or an empty
request list, every registered demo in registration order; otherwise
the requested names. -/
def selectDemos (allFlag : Bool) (requested : List DemoName)
    (haveMatplotlib : Bool) : List DemoName :=
  if allFlag || requested.isEmpty then registeredDemos haveMatplotlib
  else requested

/-- Modelled from the spec: Newton iteration
`x := (x + m / x) / 2` for the integer square root of `m`, run until
the iterate stops decreasing. -/
def sqrtNewtonLoop (m : ℕ) : ℕ → ℕ → ℕ
  | 0, x => x
  | fuel + 1, x =>
      if x = 0 then 0
      else if (x + m / x) / 2 < x then sqrtNewtonLoop m fuel ((x + m / x) / 2)
      else x

/-- Modelled from the spec: the square root — DomainError on negative
input, otherwise Newton iteration on the scaled integer
`scaledValue * 2 ^ resolution`, seeded from a bit-length estimate. -/
def fxSqrt (a : FXnum) : Except FXerror FXnum :=
  if a.scaledValue < 0 then Except.error FXerror.domain
  else
    Except.ok
      ⟨(sqrtNewtonLoop (a.scaledValue.natAbs * 2 ^ a.family.resolution)
          (bitLen (a.scaledValue.natAbs * 2 ^ a.family.resolution) + 8)
          (2 ^ (bitLen (a.scaledValue.natAbs * 2 ^ a.family.resolution) / 2 + 1)) : ℤ),
        a.family⟩

/-- What one pass of the basic demo prints for a resolution: the
computed `sqrt(2)`, its square, and the family constant `exp1`. -/
structure BasicDemoEntry where
  resolution : ℕ
  root : Except FXerror FXnum
  rootSquared : Except FXerror FXnum
  printedExp1 : FXnum

/-- One pass of the basic demo (demo.py lines 20-29) at a given
resolution: build the Family from the resolution alone, compute
`FXnum(2, family).sqrt()`, its square `rt * rt`, and read
`family.exp1`. -/
def basicDemoEntry (res : ℕ) : BasicDemoEntry :=
  { resolution := res
    root := fxSqrt (fxFromInt 2 (FXfamily.ofResolution res))
    rootSquared :=
      match fxSqrt (fxFromInt 2 (FXfamily.ofResolution res)) with
      | Except.error e => Except.error e
      | Except.ok rt => fxMul rt rt
    printedExp1 :=
      ⟨computeConstant (FXfamily.ofResolution res) ConstName.exp1,
        FXfamily.ofResolution res⟩ }

/-- The resolutions the basic demo loops over. -/
def basicDemoResolutions : List ℕ := [8, 32, 80, 274]

/-- The full trace of the basic demo: one entry per resolution, in
order. -/
def basicDemoTrace : List BasicDemoEntry :=
  basicDemoResolutions.map basicDemoEntry

/-- C2: for any Family and any of the constants `pi`, `exp1`, `log2`
(retrieved by the harness as `family.pi`, `family.exp1`,
`family.log2`), two successive requests return bit-identical Numbers —
same scaled value under the same Family — and the second request
performs no recomputation, returning the cached value. -/
theorem family_constant_cached (s : FXfamilyState) (n : ConstName) :
    (FXnum.mk ((s.getConstant n).2.1.getConstant n).1 (s.getConstant n).2.1.family)
      = FXnum.mk (s.getConstant n).1 s.family ∧
    ((s.getConstant n).2.1.getConstant n).2.2 = false := by
  obtain ⟨f, cp, ce, cl⟩ := s
  cases n with
  | pi => cases cp <;> simp [FXfamilyState.getConstant]
  | exp1 => cases ce <;> simp [FXfamilyState.getConstant]
  | log2 => cases cl <;> simp [FXfamilyState.getConstant]

/-- C1 helper: `fxExp` reports Overflow exactly when the computed
scaled exponential fails the Family's range check. -/
theorem isOverflowErr_fxExp (a : FXnum) :
    isOverflowErr (fxExp a)
      = ! a.family.validScaled (fxExpScaled a.family.resolution a.scaledValue) := by
  cases hv : a.family.validScaled (fxExpScaled a.family.resolution a.scaledValue) with
  | false => simp [fxExp, hv, isOverflowErr]
  | true => simp [fxExp, hv, isOverflowErr]

/-- C1 helper: at a fixed resolution the computed exponential does not
depend on the integer width, while the range bound grows with the
width, so an overflow under the wider Family is an overflow under the
narrower one. -/
theorem demoOverflowsAt_mono (w1 w2 k : ℕ) (hw : w1 ≤ w2)
    (h : demoOverflowsAt w2 k = true) : demoOverflowsAt w1 k = true := by
  unfold demoOverflowsAt at h ⊢
  rw [isOverflowErr_fxExp, Bool.not_eq_true'] at h ⊢
  have h2 : (FXfamily.mk 20 w2).validScaled (fxExpScaled 20 ((k : ℤ) * 104858)) = false := h
  show (FXfamily.mk 20 w1).validScaled (fxExpScaled 20 ((k : ℤ) * 104858)) = false
  simp only [FXfamily.validScaled, decide_eq_false_iff_not, not_lt] at h2 ⊢
  exact le_trans (Nat.pow_le_pow_right (by norm_num) (by omega)) h2

/-- C1 helper: if the overflow demo's `exp` overflows somewhere on the
input sequence under the wider integer width, it also overflows
somewhere under any narrower width. -/
theorem demoOverflow_exists_of_le (w1 w2 : ℕ) (hw : w1 ≤ w2)
    (h : ∃ k, demoOverflowsAt w2 k = true) :
    ∃ k, demoOverflowsAt w1 k = true :=
  h.elim fun k hk => ⟨k, demoOverflowsAt_mono w1 w2 k hw hk⟩

/-- C5 helper: re-expression under a target Family yields a Number of
that Family. -/
theorem fxConvert_family (x : FXnum) (f : FXfamily) :
    (fxConvert x f).family = f := by
  unfold fxConvert
  split <;> rfl

/-- C5 helper: on same-Family operands, `fxAdd` either succeeds within
the Family or raises Overflow — never FamilyMismatch. -/
theorem fxAdd_cases (a b : FXnum) (h : a.family = b.family) :
    (∃ c, fxAdd a b = Except.ok c ∧ c.family = a.family)
      ∨ fxAdd a b = Except.error FXerror.overflow := by
  unfold fxAdd
  rw [if_pos h]
  split
  · exact Or.inl ⟨_, rfl, rfl⟩
  · exact Or.inr rfl

/-- C5 helper: on same-Family operands, `fxSub` either succeeds within
the Family or raises Overflow — never FamilyMismatch. -/
theorem fxSub_cases (a b : FXnum) (h : a.family = b.family) :
    (∃ c, fxSub a b = Except.ok c ∧ c.family = a.family)
      ∨ fxSub a b = Except.error FXerror.overflow := by
  unfold fxSub
  rw [if_pos h]
  split
  · exact Or.inl ⟨_, rfl, rfl⟩
  · exact Or.inr rfl

/-- C5 helper: on same-Family operands, `fxMul` either succeeds within
the Family or raises Overflow — never FamilyMismatch. -/
theorem fxMul_cases (a b : FXnum) (h : a.family = b.family) :
    (∃ c, fxMul a b = Except.ok c ∧ c.family = a.family)
      ∨ fxMul a b = Except.error FXerror.overflow := by
  unfold fxMul
  rw [if_pos h]
  split
  · exact Or.inl ⟨_, rfl, rfl⟩
  · exact Or.inr rfl

/-- C5 helper: on same-Family operands, `fxDiv` succeeds within the
Family or raises DivisionByZero or Overflow — never FamilyMismatch. -/
theorem fxDiv_cases (a b : FXnum) (h : a.family = b.family) :
    (∃ c, fxDiv a b = Except.ok c ∧ c.family = a.family)
      ∨ fxDiv a b = Except.error FXerror.divisionByZero
      ∨ fxDiv a b = Except.error FXerror.overflow := by
  unfold fxDiv
  rw [if_pos h]
  split
  · exact Or.inr (Or.inl rfl)
  · split
    · exact Or.inl ⟨_, rfl, rfl⟩
    · exact Or.inr (Or.inr rfl)

/-- C5 helper: `fxLn` succeeds within the Family or raises DomainError
or Overflow — never FamilyMismatch. -/
theorem fxLn_cases (a : FXnum) :
    (∃ c, fxLn a = Except.ok c ∧ c.family = a.family)
      ∨ fxLn a = Except.error FXerror.domain
      ∨ fxLn a = Except.error FXerror.overflow := by
  unfold fxLn
  split
  · exact Or.inr (Or.inl rfl)
  · split
    · exact Or.inl ⟨_, rfl, rfl⟩
    · exact Or.inr (Or.inr rfl)

/-- C5 helper: `lostbits` never fails with a FamilyMismatch — every
binary operation it performs combines Numbers of `fam_acc` (or an
integer promoted into it). -/
theorem lostbits_no_mismatch (x xacc : FXnum) (e : FXerror)
    (h : lostbitsM x xacc = Except.error e) : e ≠ FXerror.familyMismatch := by
  unfold lostbitsM at h
  rcases fxSub_cases (fxConvert x xacc.family) xacc (fxConvert_family x xacc.family)
    with ⟨eps, heps, hepsf⟩ | heps
  · simp only [heps] at h
    rcases fxLn_cases (fxAbs eps) with ⟨l, hl, hlf⟩ | hl | hl
    · simp only [hl] at h
      have hlfam : l.family = xacc.family := by
        rw [hlf]
        show eps.family = xacc.family
        rw [hepsf, fxConvert_family]
      rcases fxDiv_cases l (famLog2 xacc.family) hlfam with ⟨q, hq, hqf⟩ | hq | hq
      · simp only [hq] at h
        have hqfam : q.family = (fxFromInt (x.family.resolution : ℤ) xacc.family).family := by
          rw [hqf, hlfam]
          rfl
        rcases fxAdd_cases q (fxFromInt (x.family.resolution : ℤ) xacc.family) hqfam
          with ⟨c, hc, -⟩ | hc
        · rw [hc] at h
          exact absurd h (by simp)
        · rw [hc] at h
          obtain rfl : FXerror.overflow = e := by simpa using h
          simp
      · simp only [hq] at h
        obtain rfl : FXerror.divisionByZero = e := by simpa using h
        simp
      · simp only [hq] at h
        obtain rfl : FXerror.overflow = e := by simpa using h
        simp
    · simp only [hl] at h
      obtain rfl : FXerror.domain = e := by simpa using h
      simp
    · simp only [hl] at h
      obtain rfl : FXerror.overflow = e := by simpa using h
      simp
  · simp only [heps] at h
    obtain rfl : FXerror.overflow = e := by simpa using h
    simp

/-- C5 helper: the speed demo's logistic-map step never fails with a
FamilyMismatch when its three operands share one Family. -/
theorem speed_no_mismatch (lmb one x : FXnum) (e : FXerror)
    (hl : lmb.family = x.family) (ho : one.family = x.family)
    (h : speedStep lmb one x = Except.error e) : e ≠ FXerror.familyMismatch := by
  unfold speedStep at h
  rcases fxSub_cases one x ho with ⟨d, hd, hdf⟩ | hd
  · simp only [hd] at h
    rcases fxMul_cases lmb x hl with ⟨p, hp, hpf⟩ | hp
    · simp only [hp] at h
      rcases fxMul_cases p d (by rw [hpf, hdf, hl, ho]) with ⟨c, hc, -⟩ | hc
      · rw [hc] at h
        exact absurd h (by simp)
      · rw [hc] at h
        obtain rfl : FXerror.overflow = e := by simpa using h
        simp
    · simp only [hp] at h
      obtain rfl : FXerror.overflow = e := by simpa using h
      simp
  · simp only [hd] at h
    obtain rfl : FXerror.overflow = e := by simpa using h
    simp

/-- C5: every binary operation the harness performs combines Numbers of
one Family (or a literal promoted into it): in `lostbits` the
lower-resolution value is first reconstructed under the
higher-resolution Family (`fxConvert` lands in `fam_acc`) so the
subtraction, logarithm, division and final addition all stay inside
`fam_acc` and can never fail with FamilyMismatch; likewise the speed
demo's logistic-map step on three Numbers of one Family never raises
FamilyMismatch. -/
theorem harness_never_mixes_families (x xacc lmb one y : FXnum)
    (e1 e2 : FXerror) (hl : lmb.family = y.family) (ho : one.family = y.family) :
    (fxConvert x xacc.family).family = xacc.family ∧
    (lostbitsM x xacc = Except.error e1 → e1 ≠ FXerror.familyMismatch) ∧
    (speedStep lmb one y = Except.error e2 → e2 ≠ FXerror.familyMismatch) :=
  ⟨fxConvert_family x xacc.family,
    lostbits_no_mismatch x xacc e1,
    speed_no_mismatch lmb one y e2 hl ho⟩

/-- C5 witness: the concrete operands of `piAccuracyPlot` at 4 bits
(accurate Family at 44 bits) and of the speed demo at 16 bits. -/
theorem harness_never_mixes_families_witness :
    (fxConvert (fxFromInt 3 ⟨4, 64⟩) (FXfamily.mk 44 64)).family = FXfamily.mk 44 64 ∧
    (lostbitsM (fxFromInt 3 ⟨4, 64⟩) (fxFromInt 3 ⟨44, 64⟩)
        = Except.error FXerror.overflow →
      FXerror.overflow ≠ FXerror.familyMismatch) ∧
    (speedStep (fxFromRat 18 5 ⟨16, 64⟩) (fxFromInt 1 ⟨16, 64⟩)
        (fxFromRat 1 2 ⟨16, 64⟩) = Except.error FXerror.overflow →
      FXerror.overflow ≠ FXerror.familyMismatch) :=
  harness_never_mixes_families (fxFromInt 3 ⟨4, 64⟩) (fxFromInt 3 ⟨44, 64⟩)
    (fxFromRat 18 5 ⟨16, 64⟩) (fxFromInt 1 ⟨16, 64⟩) (fxFromRat 1 2 ⟨16, 64⟩)
    FXerror.overflow FXerror.overflow rfl rfl

/-- C3 helper: a successful `fxAdd` pins down the result. -/
theorem fxAdd_ok (a b c : FXnum) (h : fxAdd a b = Except.ok c) :
    a.family = b.family ∧ c = ⟨a.scaledValue + b.scaledValue, a.family⟩ := by
  unfold fxAdd at h
  split at h
  · split at h
    · exact ⟨by assumption, (Except.ok.injEq _ _).mp h.symm⟩
    · exact absurd h (by simp)
  · exact absurd h (by simp)

/-- C3 helper: a successful `fxSub` pins down the result. -/
theorem fxSub_ok (a b c : FXnum) (h : fxSub a b = Except.ok c) :
    a.family = b.family ∧ c = ⟨a.scaledValue - b.scaledValue, a.family⟩ := by
  unfold fxSub at h
  split at h
  · split at h
    · exact ⟨by assumption, (Except.ok.injEq _ _).mp h.symm⟩
    · exact absurd h (by simp)
  · exact absurd h (by simp)

/-- C3: for Numbers of one Family, whenever the intermediate sum and the
final difference both stay inside the Family's integer-bit range (both
operations succeed), `(a + b) - b` recovers `a` exactly: scaled-integer
addition and subtraction are exact. -/
theorem fx_add_sub_cancel (a b c d : FXnum)
    (h1 : fxAdd a b = Except.ok c) (h2 : fxSub c b = Except.ok d) :
    d = a := by
  obtain ⟨hab, hc⟩ := fxAdd_ok a b c h1
  obtain ⟨-, hd⟩ := fxSub_ok c b d h2
  subst hc
  subst hd
  cases a with
  | mk av af =>
    simp only [FXnum.mk.injEq]
    exact ⟨by ring, trivial⟩

/-- C3 witness: a concrete instance at a 3-fractional-bit, 4-integer-bit
Family, with both hypotheses discharged by evaluation. -/
theorem fx_add_sub_cancel_witness :
    (⟨5, ⟨3, 4⟩⟩ : FXnum) = ⟨5, ⟨3, 4⟩⟩ :=
  fx_add_sub_cancel ⟨5, ⟨3, 4⟩⟩ ⟨7, ⟨3, 4⟩⟩ ⟨12, ⟨3, 4⟩⟩ ⟨5, ⟨3, 4⟩⟩
    rfl rfl

/-- Concrete fact: under the demo's 32-bit integer width the
exponential overflows at some step of the input sequence (at
`x = 21.5`, step 215). -/
theorem demoOverflow32_exists : ∃ k, demoOverflowsAt 32 k = true :=
  ⟨215, by decide⟩

/-- C1: in the overflow demonstration (20 fractional bits, input
stepped up by 0.1 from 0), for any tested widths `w1 ≤ w2` the first
step index at which `exp` raises Overflow under width `w1` is no larger
than the first such index under width `w2`; the input at step `k`
being `k * 0.1`, the narrower width overflows at an input no larger
than the wider width's. -/
theorem overflow_first_input_mono (w1 w2 : ℕ) (hw : w1 ≤ w2)
    (h2 : ∃ k, demoOverflowsAt w2 k = true) :
    Nat.find (demoOverflow_exists_of_le w1 w2 hw h2) ≤ Nat.find h2 :=
  Nat.find_mono fun k hk => demoOverflowsAt_mono w1 w2 k hw hk

/-- C1 witness: the 4-bit and 32-bit integer widths from the demo, with
the overflow-existence hypothesis discharged at step 215. -/
theorem overflow_first_input_mono_witness :
    (4 : ℕ) ≤ 32 ∧
    Nat.find (demoOverflow_exists_of_le 4 32 (by norm_num) demoOverflow32_exists)
      ≤ Nat.find demoOverflow32_exists :=
  ⟨by norm_num,
    overflow_first_input_mono 4 32 (by norm_num) demoOverflow32_exists⟩

/-- C4 and C9 helper: when the engine succeeds on the first `d` steps
from `i` and fails at step `i + d`, the loop run with enough fuel stops
there — catching the error and reporting the step when the kind is
Overflow, propagating the error otherwise. -/
theorem overflowLoop_first_error (expF : ℕ → Except FXerror FXnum)
    (d i fuel : ℕ) (e : FXerror)
    (hok : ∀ j, j < d → ∃ v, expF (i + j) = Except.ok v)
    (herr : expF (i + d) = Except.error e)
    (hfuel : d < fuel) :
    overflowLoop expF fuel i
      = some (if e = FXerror.overflow then Except.ok (i + d)
              else Except.error e) := by
  induction d generalizing fuel i with
  | zero =>
      cases fuel with
      | zero => omega
      | succ f =>
          rw [Nat.add_zero] at herr
          simp only [overflowLoop, herr]
          cases e <;> simp
  | succ d ih =>
      cases fuel with
      | zero => omega
      | succ f =>
          obtain ⟨v, hv⟩ := hok 0 (by omega)
          rw [Nat.add_zero] at hv
          simp only [overflowLoop, hv]
          have hrw : i + (d + 1) = (i + 1) + d := by omega
          rw [hrw] at herr ⊢
          exact ih (i + 1) f
            (fun j hj => by
              have hrj : (i + 1) + j = i + (j + 1) := by omega
              rw [hrj]
              exact hok (j + 1) (by omega))
            herr (by omega)

/-- C4: the overflow demo's loop catches the Overflow kind and only
that kind: when the engine's first failure after `d` successful steps
is an error `e`, the loop halts there with the overflow point reported
(`Except.ok d`, the caught break) when `e` is Overflow, and with `e`
itself propagating uncaught otherwise. -/
theorem overflow_demo_catches_only_overflow (expF : ℕ → Except FXerror FXnum)
    (d fuel : ℕ) (e : FXerror)
    (hok : ∀ j, j < d → ∃ v, expF j = Except.ok v)
    (herr : expF d = Except.error e)
    (hfuel : d < fuel) :
    overflowLoop expF fuel 0
      = some (if e = FXerror.overflow then Except.ok d else Except.error e) := by
  have h := overflowLoop_first_error expF d 0 fuel e
    (fun j hj => by simpa using hok j hj)
    (by simpa using herr) hfuel
  simpa using h

/-- C4 witness: the probe engine that raises DomainError at step 1 —
the loop propagates the error instead of catching it. -/
theorem overflow_demo_catches_only_overflow_witness :
    overflowLoop demoErrProbe 3 0
      = some (if FXerror.domain = FXerror.overflow then Except.ok 1
              else Except.error FXerror.domain) :=
  overflow_demo_catches_only_overflow demoErrProbe 1 3 FXerror.domain
    (fun j hj => ⟨⟨0, ⟨20, 4⟩⟩, by
      cases j with
      | zero => rfl
      | succ m => omega⟩)
    rfl (by omega)

/-- C9 helper: `fxExp` either succeeds or raises Overflow — no other
error kind. -/
theorem fxExp_ok_or_overflow (a : FXnum) :
    (∃ v, fxExp a = Except.ok v) ∨ fxExp a = Except.error FXerror.overflow := by
  unfold fxExp
  split
  · exact Or.inl ⟨_, rfl⟩
  · exact Or.inr rfl

/-- C9 helper: a non-overflowing step of the demo loop is a successful
engine call. -/
theorem demoExpF_ok_of_not_overflow (w k : ℕ)
    (h : demoOverflowsAt w k = false) :
    ∃ v, demoExpF w k = Except.ok v := by
  rcases fxExp_ok_or_overflow (demoX w k) with ⟨v, hv⟩ | hv
  · exact ⟨v, hv⟩
  · exfalso
    unfold demoOverflowsAt at h
    rw [hv] at h
    simp [isOverflowErr] at h

/-- C9 helper: an overflowing step of the demo loop is an Overflow
error from the engine. -/
theorem demoExpF_err_of_overflow (w k : ℕ)
    (h : demoOverflowsAt w k = true) :
    demoExpF w k = Except.error FXerror.overflow := by
  rcases fxExp_ok_or_overflow (demoX w k) with ⟨v, hv⟩ | hv
  · exfalso
    unfold demoOverflowsAt at h
    rw [hv] at h
    simp [isOverflowErr] at h
  · exact hv

/-- C9 helper: if the demo loop halts, the input sequence contains an
overflow point. -/
theorem overflowLoop_some_overflow (w fuel i : ℕ) (r : Except FXerror ℕ)
    (h : overflowLoop (demoExpF w) fuel i = some r) :
    ∃ k, demoOverflowsAt w k = true := by
  induction fuel generalizing i with
  | zero => simp [overflowLoop] at h
  | succ f ih =>
      rcases fxExp_ok_or_overflow (demoX w i) with ⟨v, hv⟩ | hv
      · have hv' : demoExpF w i = Except.ok v := hv
        simp only [overflowLoop, hv'] at h
        exact ih (i + 1) h
      · refine ⟨i, ?_⟩
        unfold demoOverflowsAt
        rw [hv]
        rfl

/-- C9: the overflow demo's inner `while True` loop has a single exit —
for each integer width it halts if and only if `exp` eventually raises
Overflow on the increasing input sequence, and when it halts it is by
the `break`, reporting an overflow point (never any other outcome). -/
theorem overflow_loop_terminates_iff_overflow (w : ℕ) :
    ((∃ fuel r, overflowLoop (demoExpF w) fuel 0 = some r)
      ↔ ∃ k, demoOverflowsAt w k = true) ∧
    (∀ fuel r, overflowLoop (demoExpF w) fuel 0 = some r →
      ∃ k, r = Except.ok k ∧ demoOverflowsAt w k = true) := by
  have hstop : ∀ h : ∃ k, demoOverflowsAt w k = true,
      overflowLoop (demoExpF w) (Nat.find h + 1) 0
        = some (Except.ok (Nat.find h)) := by
    intro h
    have hok : ∀ j, j < Nat.find h → ∃ v, demoExpF w j = Except.ok v := by
      intro j hj
      refine demoExpF_ok_of_not_overflow w j ?_
      have := Nat.find_min h hj
      simpa using this
    have herr : demoExpF w (Nat.find h) = Except.error FXerror.overflow :=
      demoExpF_err_of_overflow w _ (Nat.find_spec h)
    have := overflow_demo_catches_only_overflow (demoExpF w)
      (Nat.find h) (Nat.find h + 1) FXerror.overflow hok herr (by omega)
    simpa using this
  constructor
  · constructor
    · rintro ⟨fuel, r, h⟩
      exact overflowLoop_some_overflow w fuel 0 r h
    · intro h
      exact ⟨Nat.find h + 1, Except.ok (Nat.find h), hstop h⟩
  · intro fuel r hr
    have h : ∃ k, demoOverflowsAt w k = true :=
      overflowLoop_some_overflow w fuel 0 r hr
    -- the loop is deterministic: compare the run with the canonical stop
    have hok : ∀ j, j < Nat.find h → ∃ v, demoExpF w j = Except.ok v := by
      intro j hj
      refine demoExpF_ok_of_not_overflow w j ?_
      have := Nat.find_min h hj
      simpa using this
    have herr : demoExpF w (Nat.find h) = Except.error FXerror.overflow :=
      demoExpF_err_of_overflow w _ (Nat.find_spec h)
    have hle : Nat.find h < fuel := by
      by_contra hge
      push_neg at hge
      -- with fuel ≤ find h every step explored succeeds, so the loop
      -- cannot have halted
      have hrun : ∀ f i, i + f ≤ Nat.find h →
          overflowLoop (demoExpF w) f i = none := by
        intro f
        induction f with
        | zero => intro i _; rfl
        | succ f ihf =>
            intro i hif
            obtain ⟨v, hv⟩ := hok i (by omega)
            simp only [overflowLoop, hv]
            exact ihf (i + 1) (by omega)
      rw [hrun fuel 0 (by omega)] at hr
      exact Option.noConfusion hr
    have := overflow_demo_catches_only_overflow (demoExpF w)
      (Nat.find h) fuel FXerror.overflow hok herr hle
    rw [hr] at this
    simp only [if_pos rfl] at this
    obtain rfl : r = Except.ok (Nat.find h) := by
      exact Option.some.inj this
    exact ⟨Nat.find h, rfl, Nat.find_spec h⟩

/-- C7: the plotting demos are optional — `piplot` and `piaccplot` are
registered exactly when matplotlib is importable, and the basic,
overflow and speed demos are offered either way. -/
theorem plot_demos_optional :
    registeredDemos false = [DemoName.basic, DemoName.overflow, DemoName.speed] ∧
    registeredDemos true
      = [DemoName.basic, DemoName.overflow, DemoName.speed,
          DemoName.piplot, DemoName.piaccplot] ∧
    (∀ hm : Bool,
      (DemoName.piplot ∈ registeredDemos hm ↔ hm = true) ∧
      (DemoName.piaccplot ∈ registeredDemos hm ↔ hm = true) ∧
      DemoName.basic ∈ registeredDemos hm ∧
      DemoName.overflow ∈ registeredDemos hm ∧
      DemoName.speed ∈ registeredDemos hm) := by
  decide

/-- C10: invoked with `--all` or with no demo names, `main` runs the
registered demos — a duplicate-free list in the fixed registration
order basic, overflow, speed, then the plotting demos when present —
so every registered demo runs exactly once, in order. -/
theorem main_runs_all_demos_once (allFlag : Bool) (req : List DemoName)
    (hm : Bool) (h : allFlag = true ∨ req = []) :
    selectDemos allFlag req hm = registeredDemos hm ∧
    (registeredDemos hm).Nodup ∧
    registeredDemos hm
      = [DemoName.basic, DemoName.overflow, DemoName.speed]
        ++ (if hm then [DemoName.piplot, DemoName.piaccplot] else []) := by
  refine ⟨?_, ?_, rfl⟩
  · rcases h with h | h
    · simp [selectDemos, h]
    · simp [selectDemos, h]
  · cases hm <;> decide

/-- C10 witness: the `--all` invocation with matplotlib present. -/
theorem main_runs_all_demos_once_witness :
    selectDemos true [] true = registeredDemos true ∧
    (registeredDemos true).Nodup ∧
    registeredDemos true
      = [DemoName.basic, DemoName.overflow, DemoName.speed]
        ++ (if true then [DemoName.piplot, DemoName.piaccplot] else []) :=
  main_runs_all_demos_once true [] true (Or.inl rfl)

/-- C8: a Family can be built from a resolution alone
(`FXfamily(resolution)`, as in the basic demo) or from an explicit pair
(`FXfamily(res, intsize)`, as in the overflow demo); with positive
widths both forms are usable and the one-argument form keeps the
requested resolution while defaulting `integerBits`. -/
theorem fxfamily_construction_usable (res i : ℕ) (hres : 0 < res) (hi : 0 < i) :
    (FXfamily.ofResolution res).wellFormed = true ∧
    (FXfamily.mk res i).wellFormed = true ∧
    (FXfamily.ofResolution res).resolution = res ∧
    0 < (FXfamily.ofResolution res).integerBits := by
  refine ⟨?_, ?_, rfl, ?_⟩
  · simp [FXfamily.wellFormed, FXfamily.ofResolution, defaultIntegerBits, hres]
  · simp [FXfamily.wellFormed, hres, hi]
  · simp [FXfamily.ofResolution, defaultIntegerBits]

/-- C8 witness: the two constructor forms used by the harness, at the
concrete widths the demos pass (resolution 8; resolution 20 with 4
integer bits). -/
theorem fxfamily_construction_usable_witness :
    (FXfamily.ofResolution 8).wellFormed = true ∧
    (FXfamily.mk 8 4).wellFormed = true ∧
    (FXfamily.ofResolution 8).resolution = 8 ∧
    0 < (FXfamily.ofResolution 8).integerBits :=
  fxfamily_construction_usable 8 4 (by decide) (by decide)

/-- C6 helper: each basic-demo pass computes exactly the three printed
quantities from the Family built for its resolution. -/
theorem basicDemoEntry_spec (r : ℕ) :
    (basicDemoEntry r).resolution = r ∧
    (basicDemoEntry r).root = fxSqrt (fxFromInt 2 (FXfamily.ofResolution r)) ∧
    (∀ rt, (basicDemoEntry r).root = Except.ok rt →
      (basicDemoEntry r).rootSquared = fxMul rt rt) ∧
    (basicDemoEntry r).printedExp1
      = ⟨computeConstant (FXfamily.ofResolution r) ConstName.exp1,
          FXfamily.ofResolution r⟩ := by
  refine ⟨rfl, rfl, ?_, rfl⟩
  intro rt hrt
  simp only [basicDemoEntry] at hrt ⊢
  rw [hrt]

/-- C6: the basic demo prints roots and exponents at several
precisions: its trace has one entry per resolution in `[8, 32, 80,
274]`, and each entry holds `sqrt(2)` computed under the Family built
from that resolution, that root multiplied by itself, and the family
constant `exp1`. -/
theorem basicDemo_prints_roots_and_exponents (e : BasicDemoEntry)
    (he : e ∈ basicDemoTrace) :
    basicDemoTrace.map BasicDemoEntry.resolution = [8, 32, 80, 274] ∧
    e.root = fxSqrt (fxFromInt 2 (FXfamily.ofResolution e.resolution)) ∧
    (∀ rt, e.root = Except.ok rt → e.rootSquared = fxMul rt rt) ∧
    e.printedExp1
      = ⟨computeConstant (FXfamily.ofResolution e.resolution) ConstName.exp1,
          FXfamily.ofResolution e.resolution⟩ := by
  have hmap : basicDemoTrace.map BasicDemoEntry.resolution = [8, 32, 80, 274] := rfl
  refine ⟨hmap, ?_⟩
  simp only [basicDemoTrace, basicDemoResolutions, List.map_cons, List.map_nil,
    List.mem_cons, List.not_mem_nil, or_false] at he
  rcases he with rfl | rfl | rfl | rfl
  · exact ⟨(basicDemoEntry_spec 8).2.1, (basicDemoEntry_spec 8).2.2.1,
      (basicDemoEntry_spec 8).2.2.2⟩
  · exact ⟨(basicDemoEntry_spec 32).2.1, (basicDemoEntry_spec 32).2.2.1,
      (basicDemoEntry_spec 32).2.2.2⟩
  · exact ⟨(basicDemoEntry_spec 80).2.1, (basicDemoEntry_spec 80).2.2.1,
      (basicDemoEntry_spec 80).2.2.2⟩
  · exact ⟨(basicDemoEntry_spec 274).2.1, (basicDemoEntry_spec 274).2.2.1,
      (basicDemoEntry_spec 274).2.2.2⟩

/-- C6 witness: the first pass of the basic demo, at 8 fractional
bits. -/
theorem basicDemo_prints_roots_and_exponents_witness :
    basicDemoTrace.map BasicDemoEntry.resolution = [8, 32, 80, 274] ∧
    (basicDemoEntry 8).root
      = fxSqrt (fxFromInt 2 (FXfamily.ofResolution (basicDemoEntry 8).resolution)) ∧
    (∀ rt, (basicDemoEntry 8).root = Except.ok rt →
      (basicDemoEntry 8).rootSquared = fxMul rt rt) ∧
    (basicDemoEntry 8).printedExp1
      = ⟨computeConstant (FXfamily.ofResolution (basicDemoEntry 8).resolution)
            ConstName.exp1,
          FXfamily.ofResolution (basicDemoEntry 8).resolution⟩ :=
  basicDemo_prints_roots_and_exponents (basicDemoEntry 8)
    (List.mem_map_of_mem basicDemoEntry (by simp [basicDemoResolutions]))
